import Mathlib

/-!
Verification development for the `aragorn` passive network observer.

The definitions below are shallow embeddings of the Rust sources:
  * `src/tun.rs`            — the `Observer`: pending-request table, metrics
                              derivation (`get_metrics`), per-frame handling
                              (`handle_tcp_packet`), TTL sweeper;
  * `src/plugin/redis/resp_parser.rs` — the RESP parser (byte level);
  * `src/plugin/redis/handler.rs`     — the `RespHandler` plugin;
  * `src/plugin/tlsdecrypt/cache.rs`  — the session-key cache scan;
  * `src/live_packet_reader.rs`       — the live link frame source.

Machine integers are modelled as `Nat` (the programs never exercise
wrap-around on the modelled paths), byte buffers as `List Nat`, `Instant`
timestamps as `Nat` (monotone clock readings), `HashMap` as a function
`Nat → Option _` with pointwise update, and Rust panics as an explicit
`panicked` outcome.
-/

namespace Aragorn

/-- The pending-request table of `Observer` (`syn_packets : HashMap<u32, Instant>`
in `src/tun.rs`), modelled as a partial map from flow key to timestamp. -/
def Table : Type := Nat → Option Nat

/-- `HashMap::insert`: pointwise update, replacing any previous binding. -/
def tinsert (m : Table) (k v : Nat) : Table :=
  fun x => if x = k then some v else m x

/-- `HashMap::remove`: pointwise deletion (a no-op on an absent key). -/
def tremove (m : Table) (k : Nat) : Table :=
  fun x => if x = k then none else m x

/-- The `Metrics` record of `src/plugin/mod.rs`: a flow identifier and an
optional latency (durations measured in clock units). -/
structure Metrics where
  identifier : Nat
  latency : Option Nat
deriving DecidableEq, Repr

/-- A dissected TCP segment, as read by `Observer::get_metrics` from the
`pnet` packet view: ports, sequence/acknowledgement numbers, the raw flag
byte and the payload bytes. -/
structure TcpSeg where
  src : Nat
  dst : Nat
  seq : Nat
  ack : Nat
  flags : Nat
  payload : List Nat
deriving DecidableEq, Repr

/-- `tcp_packet.get_flags() & TcpFlags::ACK != 0` — test of bit 4 (0x10). -/
def ackFlag (s : TcpSeg) : Bool := s.flags / 16 % 2 = 1

/-- `Observer::get_metrics` (src/tun.rs lines 205–239).  `timestamp` is the
receipt timestamp handed down from `handle_packet`; `now` is the clock
reading taken by `Instant::elapsed` at the removal site.  Returns the
produced metrics and the updated pending table. -/
def get_metrics (seg : TcpSeg) (timestamp now port : Nat) (m : Table) :
    Option Metrics × Table :=
  if ¬ ackFlag seg then (none, m)
  else if seg.dst = port then
    (some ⟨seg.ack, none⟩, tinsert m seg.ack timestamp)
  else if seg.src = port then
    match m seg.seq with
    | some time => (some ⟨seg.seq, some (now - time)⟩, tremove m seg.seq)
    | none => (none, m)
  else (none, m)

/-- Output of one `handle_tcp_packet` call: the new pending table and the
argument pair of the `plugin.process` invocation, when one happens. -/
structure StepOut where
  table : Table
  call : Option (List Nat × Option Metrics)

/-- `Observer::handle_tcp_packet` (src/tun.rs lines 172–203), for a frame
that already dissected to a TCP segment: port filter, metrics derivation,
empty-payload filter, plugin invocation. -/
def handle_tcp_packet (seg : TcpSeg) (timestamp now port : Nat) (m : Table) :
    StepOut :=
  if seg.dst ≠ port ∧ seg.src ≠ port then ⟨m, none⟩
  else
    let r := get_metrics seg timestamp now port m
    if seg.payload = [] then ⟨r.2, none⟩
    else ⟨r.2, some (seg.payload, r.1)⟩

/-- The plugin-result part of one frame of `Observer::capture_packets`
(src/tun.rs lines 100–115): the handler's `process` runs only when
`handle_tcp_packet` invokes it, its `Some` results are fanned out. -/
def captureResult {R : Type} (proc : List Nat → Option Metrics → Option R)
    (out : StepOut) : Option R :=
  match out.call with
  | none => none
  | some (payload, metrics) => proc payload metrics

/-- The post-processor fan-out of `capture_packets` (src/tun.rs lines
103–109): each registered post-processor receives the processed result;
nothing is invoked when the handler produced no result. -/
def captureFan {R P : Type} (pps : List P)
    (res : Option R) : List (P × R) :=
  match res with
  | some r => pps.map (fun p => (p, r))
  | none => []

/-! ## TTL sweeper (src/tun.rs lines 66–79)

The sweeper, the request branch and the response branch all mutate the
pending table under one mutex, so their interleaving is a sequence of
atomic events.  `Ev` is one such event: an insertion (request branch,
storing the receipt timestamp), a removal (response branch), or one sweep
iteration, which retains exactly the entries with
`now.duration_since(v) < ttl`. -/

/-- One atomic mutation of the pending table. -/
inductive Ev where
  | ins (k t : Nat)
  | rem (k : Nat)
  | sweep (now : Nat)
deriving DecidableEq, Repr

/-- Apply one event to the table.  The sweep case is
`syn_packets.retain(|_, v| now.duration_since(*v) < ttl)`; `duration_since`
on monotone instants is truncated subtraction. -/
def applyEv (ttl : Nat) (m : Table) : Ev → Table
  | .ins k t => tinsert m k t
  | .rem k => tremove m k
  | .sweep now => fun x =>
      match m x with
      | some t => if now - t < ttl then some t else none
      | none => none

/-- Run a sequence of table events in order. -/
def runEvs (ttl : Nat) (m : Table) (evs : List Ev) : Table :=
  evs.foldl (applyEv ttl) m

/-! ## Live link source (src/live_packet_reader.rs lines 27–34) -/

/-- The error kinds `pnet`'s `DataLinkReceiver::next` can produce, as the
specification distinguishes them. -/
inductive RecvError where
  | wouldBlock
  | interfaceReset
  | handleClosed
deriving DecidableEq, Repr

/-- `LivePacketReader::read_packet`: the result of one `self.rx.next()`
call mapped to the `PacketReader` contract — `Ok(packet)` becomes
`Some(packet.to_vec())` and every `Err(_)` becomes `None`. -/
def read_packet (r : Except RecvError (List Nat)) : Option (List Nat) :=
  match r with
  | .ok packet => some packet
  | .error _ => none

/-! ## Session-key cache scan (src/plugin/tlsdecrypt/cache.rs)

`CachedTLSSessionKeys::get` first probes the LRU hot tier; on a miss it
rewinds the backing reader and repeatedly calls `parse_line`, which reads
one line and runs the `nom` parser `parse_client_random` on it.  The
backing reader is modelled as the list of its lines (each line as
delivered by `read_line`, i.e. including its terminator), read without
I/O errors. -/

/-- `c.is_ascii_hexdigit()`. -/
def isHexDigitC (c : Char) : Bool :=
  c.isDigit || decide (('a') ≤ c ∧ c ≤ ('f')) || decide (('A') ≤ c ∧ c ≤ ('F'))

/-- `nom::character::complete::space1` accepts spaces and tabs. -/
def isSpaceC (c : Char) : Bool := c == (' ') || c == ('\t')

/-- `space1`: at least one space character, which is consumed. -/
def space1C (input : List Char) : Option (List Char) :=
  match input.takeWhile isSpaceC with
  | [] => none
  | _ => some (input.dropWhile isSpaceC)

/-- `nom::bytes::complete::tag`: match a literal prefix. -/
def strTag (pat input : List Char) : Option (List Char) :=
  if pat.isPrefixOf input then some (input.drop pat.length) else none

/-- `nom::character::complete::line_ending`: `"\n"` or `"\r\n"`. -/
def lineEnding (input : List Char) : Option (List Char) :=
  match input with
  | ('\n') :: rest => some rest
  | ('\r') :: ('\n') :: rest => some rest
  | _ => none

/-- `take_while1 p`: at least one character satisfying `p`. -/
def takeWhile1C (p : Char → Bool) (input : List Char) :
    Option (List Char × List Char) :=
  match input.takeWhile p with
  | [] => none
  | taken => some (taken, input.dropWhile p)

/-- `parse_client_random` (src/plugin/tlsdecrypt/cache.rs lines 102–110):
`CLIENT_RANDOM <hex> <hex> <line-end>`, yielding the two hex fields. -/
def parse_client_random (input : List Char) :
    Option (List Char × List Char) := do
  let input ← strTag (("CLIENT_RANDOM").toList) input
  let input ← space1C input
  let (random1, input) ← takeWhile1C isHexDigitC input
  let input ← space1C input
  let (random2, input) ← takeWhile1C isHexDigitC input
  let _ ← lineEnding input
  some (random1, random2)

/-- `CachedTLSSessionKeys::parse_line` on the next available line
(lines 83–99): `Ok(0)` at end of input and a line that fails
`parse_client_random` both come back as `None`. -/
def parse_line (line : List Char) : Option (List Char × List Char) :=
  parse_client_random line

/-- The scan loop of `CachedTLSSessionKeys::get` (lines 64–78), entered on
a hot-tier miss: pull lines; a parsed line is cached and compared with the
query; a `None` from `parse_line` — end of file *or* unparsable line —
breaks the loop and the whole call returns `None`. -/
def cacheScan (lines : List (List Char)) (q : List Char) :
    Option (List Char) :=
  match lines with
  | [] => none
  | l :: rest =>
    match parse_line l with
    | none => none
    | some (cr, mk) => if q = cr then some mk else cacheScan rest q

/-- `CachedTLSSessionKeys::get` (lines 51–81) with hot tier state `hot`
(an association list standing for the LRU map): probe the hot tier, then
scan the backing lines. -/
def cacheGet (hot : List (List Char × List Char)) (lines : List (List Char))
    (q : List Char) : Option (List Char) :=
  match hot.lookup q with
  | some mk => some mk
  | none => cacheScan lines q

/-! ## RESP parser (src/plugin/redis/resp_parser.rs)

The parser works on byte slices.  Bytes are modelled as `Nat` (every byte
the code produces or tests is < 256).  `str::from_utf8(..).unwrap()` —
which panics on invalid UTF-8 — is modelled by an explicit UTF-8 validity
check, and a panic is a distinguished outcome `panicked` that, like a Rust
panic, propagates through `alt` instead of letting it try the next
branch. -/

/-- The 3-slot parsed view `RespValue` (resp_parser.rs lines 10–15), with
string slots as their byte content. -/
structure RespValue where
  command : Option (List Nat)
  key : Option (List Nat)
  value : Option (List Nat)
deriving DecidableEq, Repr

/-- Outcome of a `nom` parser over bytes: success with the remaining
input, a recoverable `nom` error (which `alt` catches), or a Rust panic
(which nothing catches). -/
inductive PR (α : Type) where
  | ok (rest : List Nat) (v : α)
  | fail
  | panicked
deriving DecidableEq, Repr

/-- `c.is_ascii_digit()` on a byte. -/
def isDigitB (b : Nat) : Bool := 48 ≤ b && b ≤ 57

/-- A UTF-8 continuation byte (`10xxxxxx`). -/
def utf8Cont (b : Nat) : Bool := 128 ≤ b && b ≤ 191

/-- Validity of a byte sequence as UTF-8 — the check behind
`str::from_utf8`, which rejects overlong forms, surrogates and
out-of-range leading bytes. -/
def utf8Valid : List Nat → Bool
  | [] => true
  | b :: rest =>
    if b ≤ 127 then utf8Valid rest
    else if 194 ≤ b && b ≤ 223 then
      match rest with
      | c1 :: r => utf8Cont c1 && utf8Valid r
      | [] => false
    else if b = 224 then
      match rest with
      | c1 :: c2 :: r => (160 ≤ c1 && c1 ≤ 191) && utf8Cont c2 && utf8Valid r
      | _ => false
    else if 225 ≤ b && b ≤ 236 then
      match rest with
      | c1 :: c2 :: r => utf8Cont c1 && utf8Cont c2 && utf8Valid r
      | _ => false
    else if b = 237 then
      match rest with
      | c1 :: c2 :: r => (128 ≤ c1 && c1 ≤ 159) && utf8Cont c2 && utf8Valid r
      | _ => false
    else if 238 ≤ b && b ≤ 239 then
      match rest with
      | c1 :: c2 :: r => utf8Cont c1 && utf8Cont c2 && utf8Valid r
      | _ => false
    else if b = 240 then
      match rest with
      | c1 :: c2 :: c3 :: r =>
          (144 ≤ c1 && c1 ≤ 191) && utf8Cont c2 && utf8Cont c3 && utf8Valid r
      | _ => false
    else if 241 ≤ b && b ≤ 243 then
      match rest with
      | c1 :: c2 :: c3 :: r =>
          utf8Cont c1 && utf8Cont c2 && utf8Cont c3 && utf8Valid r
      | _ => false
    else if b = 244 then
      match rest with
      | c1 :: c2 :: c3 :: r =>
          (128 ≤ c1 && c1 ≤ 143) && utf8Cont c2 && utf8Cont c3 && utf8Valid r
      | _ => false
    else false

/-- `nom::character::complete::char`: match one literal byte. -/
def charB (c : Nat) : List Nat → PR Unit
  | b :: rest => if b = c then .ok rest () else .fail
  | [] => .fail

/-- `tag("\r\n")`. -/
def tagCRLF : List Nat → PR Unit
  | 13 :: 10 :: rest => .ok rest ()
  | _ => .fail

/-- `nom::bytes::complete::take(n)`: exactly `n` bytes or a `nom` error. -/
def takeN (n : Nat) (l : List Nat) : PR (List Nat) :=
  if n ≤ l.length then .ok (l.drop n) (l.take n) else .fail

/-- Numeric value of an ASCII digit string, most significant first — the
successful path of `str::from_utf8(s).unwrap().parse::<usize>()`. -/
def digitsToNat (ds : List Nat) : Nat :=
  ds.foldl (fun a b => a * 10 + (b - 48)) 0

/-- `parse_simple_string` (resp_parser.rs lines 31–44): `+`, content up to
`\r`, `\r\n`; the content goes through `from_utf8(..).unwrap()`. -/
def parse_simple_string (input : List Nat) : PR RespValue :=
  match charB 43 input with
  | .ok input _ =>
    let s := input.takeWhile (fun c => c ≠ 13)
    match tagCRLF (input.dropWhile (fun c => c ≠ 13)) with
    | .ok input _ =>
        if utf8Valid s then .ok input ⟨some s, none, none⟩ else .panicked
    | _ => .fail
  | _ => .fail

/-- `parse_error` (lines 46–59): as `parse_simple_string` but for `-`. -/
def parse_error (input : List Nat) : PR RespValue :=
  match charB 45 input with
  | .ok input _ =>
    let s := input.takeWhile (fun c => c ≠ 13)
    match tagCRLF (input.dropWhile (fun c => c ≠ 13)) with
    | .ok input _ =>
        if utf8Valid s then .ok input ⟨some s, none, none⟩ else .panicked
    | _ => .fail
  | _ => .fail

/-- `parse_integer` (lines 61–74): `:`, a digit run (digits are always
valid UTF-8, so the `unwrap` cannot panic here), `\r\n`. -/
def parse_integer (input : List Nat) : PR RespValue :=
  match charB 58 input with
  | .ok input _ =>
    let s := input.takeWhile isDigitB
    match tagCRLF (input.dropWhile isDigitB) with
    | .ok input _ => .ok input ⟨none, none, some s⟩
    | _ => .fail
  | _ => .fail

/-- `parse_bulk_string` (lines 76–100): `$`, a digit run whose
`parse::<usize>().unwrap()` panics when the run is empty, `\r\n`, exactly
`length` data bytes (whose `from_utf8(..).unwrap()` panics on invalid
UTF-8; empty data becomes an absent value), `\r\n`. -/
def parse_bulk_string (input : List Nat) : PR RespValue :=
  match charB 36 input with
  | .ok input _ =>
    let lds := input.takeWhile isDigitB
    if lds = [] then .panicked
    else
      let length := digitsToNat lds
      match tagCRLF (input.dropWhile isDigitB) with
      | .ok input _ =>
        match takeN length input with
        | .ok input data =>
          match tagCRLF input with
          | .ok input _ =>
            if data = [] then .ok input ⟨none, none, none⟩
            else if utf8Valid data then .ok input ⟨none, none, some data⟩
            else .panicked
          | _ => .fail
        | _ => .fail
      | _ => .fail
  | _ => .fail

/-- The element loop of `parse_array` (lines 112–117): parse `n`
consecutive values with the given sub-parser. -/
def parseItemsWith (p : List Nat → PR RespValue) :
    Nat → List Nat → PR (List RespValue)
  | 0, input => .ok input []
  | n + 1, input =>
    match p input with
    | .ok input v =>
      match parseItemsWith p n input with
      | .ok input vs => .ok input (v :: vs)
      | .fail => .fail
      | .panicked => .panicked
    | .fail => .fail
    | .panicked => .panicked

/-- `parse_array` (lines 102–131) given a sub-parser for the items: `*`,
a digit count (empty run panics as in `parse_bulk_string`), `\r\n`, the
items, then the flatten — first item's value ⇒ command, second ⇒ key,
third ⇒ value. -/
def parse_arrayWith (p : List Nat → PR RespValue) (input : List Nat) :
    PR RespValue :=
  match charB 42 input with
  | .ok input _ =>
    let lds := input.takeWhile isDigitB
    if lds = [] then .panicked
    else
      let length := digitsToNat lds
      match tagCRLF (input.dropWhile isDigitB) with
      | .ok input _ =>
        match parseItemsWith p length input with
        | .ok input values =>
          .ok input
            ⟨(values.get? 0).bind (fun v => v.value),
             (values.get? 1).bind (fun v => v.value),
             (values.get? 2).bind (fun v => v.value)⟩
        | .fail => .fail
        | .panicked => .panicked
      | _ => .fail
  | _ => .fail

/-- `nom::branch::alt` on two alternatives: the second runs only when the
first reports a recoverable error; a panic propagates. -/
def altPR (a : PR RespValue) (b : Unit → PR RespValue) : PR RespValue :=
  match a with
  | .fail => b ()
  | x => x

/-- `parse_resp` (lines 134–142) with explicit recursion fuel; every
alternative consumes its leading marker byte before recursing, so the
recursion depth is bounded by the input length and the fuel only makes
that bound explicit. -/
def parseRespF : Nat → List Nat → PR RespValue
  | 0 => fun _ => .fail
  | fuel + 1 => fun input =>
    altPR (parse_simple_string input) (fun _ =>
      altPR (parse_error input) (fun _ =>
        altPR (parse_integer input) (fun _ =>
          altPR (parse_bulk_string input) (fun _ =>
            parse_arrayWith (parseRespF fuel) input))))

/-- `parse_resp`: the fuel `input.length + 1` dominates the recursion
depth of every parse, successful or not. -/
def parse_resp (input : List Nat) : PR RespValue :=
  parseRespF (input.length + 1) input

/-! ## Redis handler (src/plugin/redis/handler.rs) -/

/-- `RedisResult` (handler.rs lines 12–17), latency in milliseconds. -/
structure RedisResult where
  key : List Nat
  is_error : Bool
  latency : Nat
deriving DecidableEq, Repr

/-- The per-identifier payload memory `key_map : HashMap<u32, RespValue>`. -/
def Store : Type := Nat → Option RespValue

/-- Byte-sublist test, used to model `String::contains`. -/
def isSubList (pat : List Nat) : List Nat → Bool
  | [] => pat = []
  | b :: rest => pat.isPrefixOf (b :: rest) || isSubList pat rest

/-- `input.to_string().contains("ERR")` (handler.rs line 65): the
`Display` rendering of `RespValue` is a fixed frame around the three
slots, and the frame itself never contains `ERR`, so the test holds iff
one of the slot strings contains the byte sequence `ERR` (69, 82, 82). -/
def respContainsERR (v : RespValue) : Bool :=
  (match v.command with | some s => isSubList [69, 82, 82] s | none => false)
  || (match v.key with | some s => isSubList [69, 82, 82] s | none => false)
  || (match v.value with | some s => isSubList [69, 82, 82] s | none => false)

/-- Outcome of `RespHandler::process`: `Ok(..)`, an `anyhow` error
returned to the caller, or a panic. -/
inductive ProcOut where
  | ok (r : Option RedisResult)
  | err
  | panicked
deriving DecidableEq, Repr

/-- `RespHandler::process` (handler.rs lines 48–85): return early without
metrics; parse the payload (parse failure surfaces as an error, a parser
panic propagates); commit-on-first-write into the per-identifier memory;
on the response direction (latency present) read the stored value, unwrap
its key — a panic when the key is absent — remove the entry and emit the
result. -/
def process (store : Store) (buf : List Nat) (metrics : Option Metrics) :
    ProcOut × Store :=
  match metrics with
  | none => (.ok none, store)
  | some m =>
    match parse_resp buf with
    | .fail => (.err, store)
    | .panicked => (.panicked, store)
    | .ok _ input =>
      let store1 : Store :=
        match store m.identifier with
        | some _ => store
        | none => fun k => if k = m.identifier then some input else store k
      match m.latency with
      | some l =>
        match store1 m.identifier with
        | none => (.err, store1)
        | some stored =>
          match stored.key with
          | none => (.panicked, store1)
          | some key =>
            (.ok (some ⟨key, respContainsERR input, l⟩),
             fun k => if k = m.identifier then none else store1 k)
      | none => (.ok none, store1)

/-! ## Legal RESP values, their wire encoding and the 3-slot view (C8)

`Resp` is the implemented RESP subset as an abstract syntax.  `encode`
produces its standard wire form; `view` is the 3-slot view the claim
describes (which is also what the parser's flatten computes).  `Wf`
carves out the *legal* values: simple/error content free of `\r` and
valid UTF-8, integers as non-empty digit runs, bulk content valid
UTF-8. -/

/-- The implemented RESP subset. -/
inductive Resp where
  | simple (s : List Nat)
  | errv (s : List Nat)
  | intv (s : List Nat)
  | bulk (s : List Nat)
  | arr (items : List Resp)
deriving Repr

/-- Decimal digit bytes of `n`, most significant first (`0` encodes as
`"0"`). -/
def natDigits (n : Nat) : List Nat :=
  if n = 0 then [48] else ((Nat.digits 10 n).map (· + 48)).reverse

mutual

/-- RESP wire encoding of a value. -/
def encode : Resp → List Nat
  | .simple s => 43 :: (s ++ [13, 10])
  | .errv s => 45 :: (s ++ [13, 10])
  | .intv s => 58 :: (s ++ [13, 10])
  | .bulk s => 36 :: (natDigits s.length ++ [13, 10] ++ s ++ [13, 10])
  | .arr items => 42 :: (natDigits items.length ++ [13, 10] ++ encodeList items)

/-- Concatenated encodings of a list of values. -/
def encodeList : List Resp → List Nat
  | [] => []
  | r :: rs => encode r ++ encodeList rs

end

mutual

/-- The 3-slot view of a value — simple strings and errors fill the
command slot, integers and non-empty bulk strings the value slot, an
empty bulk string nothing, and an array takes the `value` of its first
three items as command, key and value. -/
def view : Resp → RespValue
  | .simple s => ⟨some s, none, none⟩
  | .errv s => ⟨some s, none, none⟩
  | .intv s => ⟨none, none, some s⟩
  | .bulk s => ⟨none, none, if s = [] then none else some s⟩
  | .arr items =>
    let vs := viewList items
    ⟨(vs.get? 0).bind (fun v => v.value),
     (vs.get? 1).bind (fun v => v.value),
     (vs.get? 2).bind (fun v => v.value)⟩

/-- Views of a list of values, in order. -/
def viewList : List Resp → List RespValue
  | [] => []
  | r :: rs => view r :: viewList rs

end

mutual

/-- Nesting depth of a value; bounds the parser fuel it needs. -/
def depth : Resp → Nat
  | .simple _ => 1
  | .errv _ => 1
  | .intv _ => 1
  | .bulk _ => 1
  | .arr items => depthList items + 1

/-- Maximal depth over a list of values. -/
def depthList : List Resp → Nat
  | [] => 0
  | r :: rs => max (depth r) (depthList rs)

end

/-- Legality of a RESP value for the implemented parser. -/
inductive Wf : Resp → Prop
  | simple {s : List Nat} : (∀ b ∈ s, b ≠ 13) → utf8Valid s = true →
      Wf (.simple s)
  | errv {s : List Nat} : (∀ b ∈ s, b ≠ 13) → utf8Valid s = true →
      Wf (.errv s)
  | intv {s : List Nat} : s ≠ [] → (∀ b ∈ s, isDigitB b = true) →
      Wf (.intv s)
  | bulk {s : List Nat} : utf8Valid s = true → Wf (.bulk s)
  | arr {items : List Resp} : (∀ r ∈ items, Wf r) → Wf (.arr items)

/-! ## Theorems -/

/-- C1: for a TCP segment addressed to or from the monitored port, the
metrics derivation of `Observer::get_metrics` behaves as specified: a
clear ACK flag yields no metrics and no table change; destination equal
to the monitored port inserts `ack ↦ timestamp` and yields
`{identifier = ack, latency = none}`; otherwise, source equal to the
monitored port removes the entry under `seq` and, on a hit with stored
time `t`, yields `{identifier = seq, latency = now − t}`, while a miss
yields nothing and leaves the table unchanged. -/
theorem C1_get_metrics_correct (seg : TcpSeg) (timestamp now port : Nat)
    (m : Table) (hmon : seg.src = port ∨ seg.dst = port) :
    (ackFlag seg = false → get_metrics seg timestamp now port m = (none, m)) ∧
    (ackFlag seg = true → seg.dst = port →
      get_metrics seg timestamp now port m =
        (some ⟨seg.ack, none⟩, tinsert m seg.ack timestamp)) ∧
    (ackFlag seg = true → seg.dst ≠ port → seg.src = port →
      (∀ t, m seg.seq = some t →
        get_metrics seg timestamp now port m =
          (some ⟨seg.seq, some (now - t)⟩, tremove m seg.seq)) ∧
      (m seg.seq = none →
        get_metrics seg timestamp now port m = (none, m))) := by
  refine ⟨?_, ?_, ?_⟩
  · intro h
    simp [get_metrics, h]
  · intro ha hd
    simp [get_metrics, ha, hd]
  · intro ha hd hs
    constructor
    · intro t ht
      simp [get_metrics, ha, hd, hs, ht]
    · intro ht
      simp [get_metrics, ha, hd, hs, ht]

/-- Witness for C1: a concrete request-direction ACK segment inserts its
ack number, and a concrete response-direction ACK segment with a pending
entry removes it and reports the elapsed time. -/
theorem C1_get_metrics_correct_witness :
    (get_metrics ⟨50000, 6379, 100, 500, 16, [42]⟩ 20 20 6379 (fun _ => none) =
      (some ⟨500, none⟩, tinsert (fun _ => none) 500 20)) ∧
    (get_metrics ⟨6379, 50000, 500, 700, 16, [42]⟩ 27 27 6379
        (fun k => if k = 500 then some 20 else none) =
      (some ⟨500, some 7⟩,
       tremove (fun k => if k = 500 then some 20 else none) 500)) := by
  constructor
  · exact (C1_get_metrics_correct ⟨50000, 6379, 100, 500, 16, [42]⟩ 20 20 6379
      (fun _ => none) (Or.inr rfl)).2.1 (by decide) rfl
  · exact ((C1_get_metrics_correct ⟨6379, 50000, 500, 700, 16, [42]⟩ 27 27 6379
      (fun k => if k = 500 then some 20 else none) (Or.inl rfl)).2.2
      (by decide) (by decide) rfl).1 20 (by decide)

/-- C3 counterexample: a would-block error — the specification's example
of a transient error — already makes `read_packet` return `None`, i.e.
end the stream, contrary to the claim that only fatal errors do. -/
theorem C3_counterexample :
    read_packet (Except.error RecvError.wouldBlock) = none := rfl

/-- C3 (amended): `LivePacketReader::read_packet` maps a successful
receive to `Some packet` and every receive error — transient or fatal —
to `None`, ending the stream; no error is skipped. -/
theorem C3_every_error_ends_stream :
    (∀ e : RecvError, read_packet (Except.error e) = none) ∧
    (∀ p : List Nat, read_packet (Except.ok p) = some p) :=
  ⟨fun _ => rfl, fun _ => rfl⟩

/-- C7: a TCP frame where neither port equals the monitored port is
dropped by the port filter of `handle_tcp_packet`: the pending table is
untouched, the plugin's `process` is never invoked, and no post-processor
receives anything. -/
theorem C7_foreign_port_no_effect {R P : Type}
    (proc : List Nat → Option Metrics → Option R) (pps : List P)
    (seg : TcpSeg) (timestamp now port : Nat) (m : Table)
    (hsrc : seg.src ≠ port) (hdst : seg.dst ≠ port) :
    handle_tcp_packet seg timestamp now port m = ⟨m, none⟩ ∧
    captureResult proc (handle_tcp_packet seg timestamp now port m) = none ∧
    captureFan pps
      (captureResult proc (handle_tcp_packet seg timestamp now port m)) = [] := by
  have h : handle_tcp_packet seg timestamp now port m = ⟨m, none⟩ := by
    simp [handle_tcp_packet, hsrc, hdst]
  exact ⟨h, by simp [h, captureResult], by simp [h, captureResult, captureFan]⟩

/-- Witness for C7: a concrete frame between ports 1111 and 2222 under
monitored port 6379 leaves the singleton table untouched and produces no
plugin call and no fan-out. -/
theorem C7_foreign_port_no_effect_witness :
    handle_tcp_packet ⟨1111, 2222, 5, 9, 16, [43, 79, 75, 13, 10]⟩ 3 3 6379
        (fun k => if k = 5 then some 1 else none) =
      ⟨(fun k => if k = 5 then some 1 else none), none⟩ ∧
    captureResult (fun _ _ => some 0)
      (handle_tcp_packet ⟨1111, 2222, 5, 9, 16, [43, 79, 75, 13, 10]⟩ 3 3 6379
        (fun k => if k = 5 then some 1 else none)) = none ∧
    captureFan [0]
      (captureResult (fun _ _ => some 0)
        (handle_tcp_packet ⟨1111, 2222, 5, 9, 16, [43, 79, 75, 13, 10]⟩ 3 3 6379
          (fun k => if k = 5 then some 1 else none))) = [] :=
  C7_foreign_port_no_effect (fun _ _ => some 0) [0]
    ⟨1111, 2222, 5, 9, 16, [43, 79, 75, 13, 10]⟩ 3 3 6379
    (fun k => if k = 5 then some 1 else none) (by decide) (by decide)

/-- C10: `parse_resp` is not total over arbitrary byte input — a bulk
string whose single data byte is `0xFF` and a simple string containing
`0xFF` both drive `str::from_utf8(..).unwrap()` into a panic instead of a
parse error. -/
theorem C10_invalid_utf8_panics :
    parse_resp [36, 49, 13, 10, 255, 13, 10] = .panicked ∧
    parse_resp [43, 255, 13, 10] = .panicked := by
  exact ⟨rfl, rfl⟩

/-- C9: in the response-direction branch of `RespHandler::process`
(latency present), when the `RespValue` obtained for the identifier —
the previously stored one, or the just-parsed payload committed by
`or_insert_with` — has no key, the `stored_value.key.as_ref().unwrap()`
panics instead of returning an error. -/
theorem C9_key_none_panics (store : Store) (buf : List Nat) (id l : Nat)
    (rest : List Nat) (pv : RespValue)
    (hparse : parse_resp buf = .ok rest pv)
    (hkey : (match store id with | some v => v | none => pv).key = none) :
    (process store buf (some ⟨id, some l⟩)).1 = .panicked := by
  cases hs : store id with
  | some v =>
    rw [hs] at hkey
    have hk : v.key = none := hkey
    simp [process, hparse, hs, hk]
  | none =>
    rw [hs] at hkey
    have hk : pv.key = none := hkey
    simp [process, hparse, hs, hk]

/-- Witness for C9: the payload `+PING\r\n` parses to a key-less value;
replayed as a response (latency present) with an empty store, `process`
panics. -/
theorem C9_key_none_panics_witness :
    parse_resp [43, 80, 73, 78, 71, 13, 10] =
      .ok [] ⟨some [80, 73, 78, 71], none, none⟩ ∧
    (process (fun _ => none) [43, 80, 73, 78, 71, 13, 10]
      (some ⟨42, some 7⟩)).1 = .panicked :=
  ⟨by decide,
   C9_key_none_panics (fun _ => none) [43, 80, 73, 78, 71, 13, 10] 42 7 []
     ⟨some [80, 73, 78, 71], none, none⟩ (by decide) (by decide)⟩

/-- C5: evaluation of the code at the claim's situation.  The payload
`+PONG\r\n` arrives on the response direction (latency present) with no
previously stored request under its identifier: instead of raising a
non-fatal `OrphanResponse` warning, `RespHandler::process` first commits
the response itself into the per-identifier memory and then panics
unwrapping its absent key. -/
theorem C5_orphan_response_panics :
    (process (fun _ => none) [43, 80, 79, 78, 71, 13, 10]
      (some ⟨42, some 7⟩)).1 = .panicked := by
  decide

/-- C2: evaluation of the code at the failing input.  The backing file
holds a non-matching first line (a comment, as real NSS keylog files
start with) followed by a well-formed `CLIENT_RANDOM AA BB` line that
`parse_client_random` accepts; yet `get` with an empty hot tier returns
`None` for the query `AA`, because `parse_line` reports the unparsable
first line exactly like end-of-file and the scan loop breaks there. -/
theorem C2_unparsable_line_aborts_scan :
    parse_client_random (("CLIENT_RANDOM AA BB\n").toList) =
      some ((("AA").toList), (("BB").toList)) ∧
    cacheGet [] [("# SSL keylog\n").toList, ("CLIENT_RANDOM AA BB\n").toList]
      (("AA").toList) = none := by
  exact ⟨by decide, by decide⟩

/-- C4 counterexample.  Three concrete response-direction ACK frames with
a matching pending entry (`5 ↦ 10`, monitored port 6379) violate the
claim as stated: (i) a frame with source *and* destination 6379 takes the
request branch first, so the entry survives and no latency is reported;
(ii) a frame processed at the same clock reading as the stored entry
yields latency `0`, not `> 0`; (iii) a frame with an empty payload never
reaches the plugin, so no result is emitted at all. -/
theorem C4_counterexample :
    ((handle_tcp_packet ⟨6379, 6379, 5, 7, 16, [42]⟩ 20 20 6379
        (fun k => if k = 5 then some 10 else none)).table 5 = some 10 ∧
     (handle_tcp_packet ⟨6379, 6379, 5, 7, 16, [42]⟩ 20 20 6379
        (fun k => if k = 5 then some 10 else none)).call =
          some ([42], some ⟨7, none⟩)) ∧
    (handle_tcp_packet ⟨6379, 53120, 5, 9, 16, [42]⟩ 10 10 6379
        (fun k => if k = 5 then some 10 else none)).call =
          some ([42], some ⟨5, some 0⟩) ∧
    (handle_tcp_packet ⟨6379, 53120, 5, 9, 16, []⟩ 10 20 6379
        (fun k => if k = 5 then some 10 else none)).call = none := by
  exact ⟨⟨by decide, by decide⟩, by decide, by decide⟩

/-- C4 (amended): for a response-direction ACK frame whose source port
equals the monitored port, whose destination port differs from it, whose
sequence number has a pending entry stored at time `t`, and whose payload
is non-empty, processing removes exactly that entry (all other keys are
untouched) and invokes the plugin with latency `now − t`, which is
strictly positive whenever the frame is processed strictly after `t`. -/
theorem C4_response_removes_entry (seg : TcpSeg)
    (timestamp now port t : Nat) (m : Table)
    (hsrc : seg.src = port) (hdst : seg.dst ≠ port)
    (hack : ackFlag seg = true) (hpend : m seg.seq = some t)
    (hpay : seg.payload ≠ []) :
    (handle_tcp_packet seg timestamp now port m).table seg.seq = none ∧
    (∀ k, k ≠ seg.seq →
      (handle_tcp_packet seg timestamp now port m).table k = m k) ∧
    (handle_tcp_packet seg timestamp now port m).call =
      some (seg.payload, some ⟨seg.seq, some (now - t)⟩) ∧
    (t < now → 0 < now - t) := by
  have hstep : handle_tcp_packet seg timestamp now port m =
      ⟨tremove m seg.seq, some (seg.payload, some ⟨seg.seq, some (now - t)⟩)⟩ := by
    simp [handle_tcp_packet, get_metrics, hsrc, hdst, hack, hpend, hpay]
  refine ⟨?_, ?_, ?_, ?_⟩
  · simp [hstep, tremove]
  · intro k hk
    simp [hstep, tremove, hk]
  · simp [hstep]
  · omega

/-- Witness for C4 (amended): the concrete response frame
`src=6379, dst=53120, seq=500` against pending entry `500 ↦ 20`,
processed at time 27, removes the entry and reports latency 7. -/
theorem C4_response_removes_entry_witness :
    (handle_tcp_packet ⟨6379, 53120, 500, 700, 16, [36, 48, 13, 10, 13, 10]⟩
        27 27 6379 (fun k => if k = 500 then some 20 else none)).table 500 =
      none ∧
    (handle_tcp_packet ⟨6379, 53120, 500, 700, 16, [36, 48, 13, 10, 13, 10]⟩
        27 27 6379 (fun k => if k = 500 then some 20 else none)).call =
      some ([36, 48, 13, 10, 13, 10], some ⟨500, some 7⟩) := by
  have h := C4_response_removes_entry
    ⟨6379, 53120, 500, 700, 16, [36, 48, 13, 10, 13, 10]⟩ 27 27 6379 20
    (fun k => if k = 500 then some 20 else none)
    (by decide) (by decide) (by decide) (by decide) (by decide)
  exact ⟨h.1, h.2.2.1⟩

/-- Entries never appear out of nowhere: if `k` is absent and the event
sequence holds no insertion under `k`, then `k` stays absent. -/
theorem runEvs_absent_stays (ttl k : Nat) :
    ∀ (evs : List Ev) (m : Table),
      (∀ t', Ev.ins k t' ∉ evs) → m k = none → runEvs ttl m evs k = none := by
  intro evs
  induction evs with
  | nil => intro m _ hm; exact hm
  | cons e rest ih =>
    intro m hno hm
    have hrest : ∀ t', Ev.ins k t' ∉ rest := by
      intro t' ht'
      exact hno t' (List.mem_cons_of_mem _ ht')
    have hstep : applyEv ttl m e k = none := by
      cases e with
      | ins q t =>
        have hq : q ≠ k := by
          intro h
          exact hno t (by simp [h])
        simp [applyEv, tinsert, hm, Ne.symm hq]
      | rem q =>
        by_cases hq : k = q <;> simp [applyEv, tremove, hq, hm]
      | sweep s =>
        simp [applyEv, hm]
    simpa [runEvs, List.foldl_cons] using ih (applyEv ttl m e) hrest hstep

/-- With no insertion under `k`, the stored time under `k` can only
persist or disappear. -/
theorem runEvs_persist_or_none (ttl k t : Nat) :
    ∀ (evs : List Ev) (m : Table),
      (∀ t', Ev.ins k t' ∉ evs) → m k = some t →
      runEvs ttl m evs k = some t ∨ runEvs ttl m evs k = none := by
  intro evs
  induction evs with
  | nil => intro m _ hm; exact Or.inl hm
  | cons e rest ih =>
    intro m hno hm
    have hrest : ∀ t', Ev.ins k t' ∉ rest := by
      intro t' ht'
      exact hno t' (List.mem_cons_of_mem _ ht')
    have hcases : applyEv ttl m e k = some t ∨ applyEv ttl m e k = none := by
      cases e with
      | ins q u =>
        have hq : q ≠ k := by
          intro h
          exact hno u (by simp [h])
        exact Or.inl (by simp [applyEv, tinsert, hm, Ne.symm hq])
      | rem q =>
        by_cases hq : k = q
        · exact Or.inr (by simp [applyEv, tremove, hq])
        · exact Or.inl (by simp [applyEv, tremove, hq, hm])
      | sweep s =>
        by_cases hlt : s - t < ttl
        · exact Or.inl (by simp [applyEv, hm, hlt])
        · exact Or.inr (by simp [applyEv, hm, hlt])
    rcases hcases with h | h
    · simpa [runEvs, List.foldl_cons] using ih (applyEv ttl m e) hrest h
    · exact Or.inr (by
        simpa [runEvs, List.foldl_cons] using
          runEvs_absent_stays ttl k rest (applyEv ttl m e) hrest h)

/-- C6: an entry inserted at time `t` that is neither overwritten nor
removed afterwards is gone from the pending table once a sweep at any
time `s ≥ t + ttl` has run — and, the sweeper firing every
`cleanup_interval`, such a sweep happens no later than
`t + ttl + cleanup_interval`, so the entry is absent from every state
after that. -/
theorem C6_ttl_eviction (ttl cleanup_interval k t s : Nat) (m : Table)
    (evs1 a b : List Ev)
    (hsweep : t + ttl ≤ s) (hbound : s ≤ t + ttl + cleanup_interval)
    (hno_ins : ∀ t', Ev.ins k t' ∉ a ++ Ev.sweep s :: b)
    (hno_rem : Ev.rem k ∉ a ++ Ev.sweep s :: b) :
    runEvs ttl m (evs1 ++ Ev.ins k t :: (a ++ Ev.sweep s :: b)) k = none := by
  have hsplit : runEvs ttl m (evs1 ++ Ev.ins k t :: (a ++ Ev.sweep s :: b)) =
      runEvs ttl
        (runEvs ttl (tinsert (runEvs ttl m evs1) k t) a) (Ev.sweep s :: b) := by
    simp [runEvs, List.foldl_append, List.foldl_cons, applyEv]
  rw [hsplit]
  have hnoa : ∀ t', Ev.ins k t' ∉ a := by
    intro t' ht'
    exact hno_ins t' (List.mem_append_left _ ht')
  have hnob : ∀ t', Ev.ins k t' ∉ b := by
    intro t' ht'
    exact hno_ins t' (List.mem_append_right _ (List.mem_cons_of_mem _ ht'))
  have hins : (tinsert (runEvs ttl m evs1) k t) k = some t := by
    simp [tinsert]
  have hafter_sweep :
      applyEv ttl (runEvs ttl (tinsert (runEvs ttl m evs1) k t) a)
        (Ev.sweep s) k = none := by
    rcases runEvs_persist_or_none ttl k t a
        (tinsert (runEvs ttl m evs1) k t) hnoa hins with h | h
    · have hge : ¬ s - t < ttl := by omega
      simp [applyEv, h, hge]
    · simp [applyEv, h]
  simpa [runEvs, List.foldl_cons] using
    runEvs_absent_stays ttl k b _ hnob hafter_sweep

/-- Witness for C6: with `ttl = 5` and `cleanup_interval = 1`, the entry
`5 ↦ 10` inserted among unrelated traffic is absent after the sweep at
time 15 and stays absent. -/
theorem C6_ttl_eviction_witness :
    runEvs 5 (fun _ => none)
      ([Ev.ins 9 8] ++ Ev.ins 5 10 ::
        ([Ev.ins 7 12, Ev.sweep 13] ++ Ev.sweep 15 :: [Ev.ins 8 16])) 5 =
      none := by
  exact C6_ttl_eviction 5 1 5 10 15 (fun _ => none)
    [Ev.ins 9 8] [Ev.ins 7 12, Ev.sweep 13] [Ev.ins 8 16]
    (by decide) (by decide)
    (by intro t'; simp) (by simp)

/-- `takeWhile`/`dropWhile` split over a block of matching bytes followed
by a non-matching byte. -/
theorem split_takeWhile (p : Nat → Bool) :
    ∀ (l : List Nat) (c : Nat) (r : List Nat),
      (∀ b ∈ l, p b = true) → p c = false →
      (l ++ c :: r).takeWhile p = l ∧ (l ++ c :: r).dropWhile p = c :: r := by
  intro l
  induction l with
  | nil =>
    intro c r _ hc
    simp [List.takeWhile_cons, List.dropWhile_cons, hc]
  | cons b bs ih =>
    intro c r hl hc
    have hb : p b = true := hl b (by simp)
    have h := ih c r (fun x hx => hl x (by simp [hx])) hc
    simp [List.takeWhile_cons, List.dropWhile_cons, hb, h.1, h.2]

/-- The decimal encoding of a number is never empty. -/
theorem natDigits_ne_nil (n : Nat) : natDigits n ≠ [] := by
  unfold natDigits
  by_cases h : n = 0
  · simp [h]
  · simp [h, Nat.digits_ne_nil_iff_ne_zero]

/-- Every byte of a decimal encoding is an ASCII digit. -/
theorem natDigits_all_digits (n : Nat) :
    ∀ b ∈ natDigits n, isDigitB b = true := by
  intro b hb
  unfold natDigits at hb
  by_cases h : n = 0
  · simp [h] at hb
    simp [hb, isDigitB]
  · simp only [h, if_false, List.mem_reverse, List.mem_map] at hb
    obtain ⟨d, hd, rfl⟩ := hb
    have hlt : d < 10 := Nat.digits_lt_base (by norm_num) hd
    simp [isDigitB]
    omega

/-- Parsing back the decimal encoding recovers the number. -/
theorem digitsToNat_natDigits (n : Nat) : digitsToNat (natDigits n) = n := by
  by_cases h : n = 0
  · simp [h, natDigits, digitsToNat]
  · have hfold : ∀ L : List Nat,
        List.foldr (fun d a => a * 10 + d) 0 L = Nat.ofDigits 10 L := by
      intro L
      induction L with
      | nil => simp [Nat.ofDigits]
      | cons d L ih =>
        simp [Nat.ofDigits, ih]
        ring
    unfold natDigits digitsToNat
    rw [if_neg h, List.foldl_reverse, List.foldr_map]
    simp only [Function.comp, Nat.add_sub_cancel]
    rw [hfold]
    exact_mod_cast Nat.ofDigits_digits 10 n

/-- Every parser branch rejects a wrong marker byte with a recoverable
error. -/
theorem parse_simple_string_fail (b : Nat) (l : List Nat) (h : b ≠ 43) :
    parse_simple_string (b :: l) = .fail := by
  simp [parse_simple_string, charB, h]

/-- `parse_error` rejects a non-`-` marker. -/
theorem parse_error_fail (b : Nat) (l : List Nat) (h : b ≠ 45) :
    parse_error (b :: l) = .fail := by
  simp [parse_error, charB, h]

/-- `parse_integer` rejects a non-`:` marker. -/
theorem parse_integer_fail (b : Nat) (l : List Nat) (h : b ≠ 58) :
    parse_integer (b :: l) = .fail := by
  simp [parse_integer, charB, h]

/-- `parse_bulk_string` rejects a non-`$` marker. -/
theorem parse_bulk_string_fail (b : Nat) (l : List Nat) (h : b ≠ 36) :
    parse_bulk_string (b :: l) = .fail := by
  simp [parse_bulk_string, charB, h]

/-- `parse_simple_string` on an encoded simple string. -/
theorem parse_simple_string_encode (s rest : List Nat)
    (h13 : ∀ b ∈ s, b ≠ 13) (hu : utf8Valid s = true) :
    parse_simple_string (43 :: (s ++ 13 :: 10 :: rest)) =
      .ok rest ⟨some s, none, none⟩ := by
  have hsplit := split_takeWhile (fun c => decide (c ≠ 13)) s 13 (10 :: rest)
    (fun b hb => by simp [h13 b hb]) (by simp)
  simp only [ne_eq, decide_not] at hsplit
  simp [parse_simple_string, charB, hsplit.1, hsplit.2, tagCRLF, hu]

/-- `parse_error` on an encoded error string. -/
theorem parse_error_encode (s rest : List Nat)
    (h13 : ∀ b ∈ s, b ≠ 13) (hu : utf8Valid s = true) :
    parse_error (45 :: (s ++ 13 :: 10 :: rest)) =
      .ok rest ⟨some s, none, none⟩ := by
  have hsplit := split_takeWhile (fun c => decide (c ≠ 13)) s 13 (10 :: rest)
    (fun b hb => by simp [h13 b hb]) (by simp)
  simp only [ne_eq, decide_not] at hsplit
  simp [parse_error, charB, hsplit.1, hsplit.2, tagCRLF, hu]

/-- `parse_integer` on an encoded digit run. -/
theorem parse_integer_encode (s rest : List Nat)
    (hd : ∀ b ∈ s, isDigitB b = true) :
    parse_integer (58 :: (s ++ 13 :: 10 :: rest)) =
      .ok rest ⟨none, none, some s⟩ := by
  have hsplit := split_takeWhile isDigitB s 13 (10 :: rest) hd (by decide)
  simp [parse_integer, charB, hsplit.1, hsplit.2, tagCRLF]

/-- `parse_bulk_string` on an encoded bulk string: empty content becomes
an absent value. -/
theorem parse_bulk_string_encode (s rest : List Nat)
    (hu : utf8Valid s = true) :
    parse_bulk_string
        (36 :: (natDigits s.length ++ 13 :: 10 :: (s ++ 13 :: 10 :: rest))) =
      .ok rest ⟨none, none, if s = [] then none else some s⟩ := by
  have hsplit := split_takeWhile isDigitB (natDigits s.length) 13
    (10 :: (s ++ 13 :: 10 :: rest)) (natDigits_all_digits _) (by decide)
  have hnn := natDigits_ne_nil s.length
  have hval := digitsToNat_natDigits s.length
  by_cases hs : s = []
  · subst hs
    rfl
  · have hlen : s.length ≤ (s ++ 13 :: 10 :: rest).length := by
      simp
    simp [parse_bulk_string, charB, hsplit.1, hsplit.2, hnn, hval, tagCRLF,
      takeN, hlen, List.take_left, List.drop_left, hs, hu]

/-- Parser correctness on encoded legal values, by recursion fuel: with
fuel at least the nesting depth, `parseRespF` consumes exactly the
encoding and returns the 3-slot view, for a single value and for a run of
array items alike. -/
theorem parse_encode_ok : ∀ fuel : Nat,
    (∀ v : Resp, Wf v → depth v ≤ fuel → ∀ rest : List Nat,
        parseRespF fuel (encode v ++ rest) = .ok rest (view v)) ∧
    (∀ items : List Resp, (∀ r ∈ items, Wf r) → depthList items ≤ fuel →
        ∀ rest : List Nat,
        parseItemsWith (parseRespF fuel) items.length
          (encodeList items ++ rest) = .ok rest (viewList items)) := by
  intro fuel
  induction fuel with
  | zero =>
    constructor
    · intro v hwf hd rest
      exfalso
      have h1 : 1 ≤ depth v := by
        cases v <;> simp [depth]
      omega
    · intro items hwf hd rest
      cases items with
      | nil => simp [encodeList, parseItemsWith, viewList]
      | cons r rs =>
        exfalso
        have h1 : 1 ≤ depth r := by
          cases r <;> simp [depth]
        have h2 : depth r ≤ depthList (r :: rs) := by
          have heq : depthList (r :: rs) = max (depth r) (depthList rs) := by
            simp [depthList]
          rw [heq]
          exact le_max_left _ _
        omega
  | succ f ih =>
    have hL1 : ∀ v : Resp, Wf v → depth v ≤ f + 1 → ∀ rest : List Nat,
        parseRespF (f + 1) (encode v ++ rest) = .ok rest (view v) := by
      intro v hwf hd rest
      cases v with
      | simple s =>
        cases hwf with
        | simple h13 hu =>
          have h := parse_simple_string_encode s rest h13 hu
          simp [parseRespF, altPR, encode, List.append_assoc, h, view]
      | errv s =>
        cases hwf with
        | errv h13 hu =>
          have h1 := parse_simple_string_fail 45 (s ++ 13 :: 10 :: rest)
            (by decide)
          have h2 := parse_error_encode s rest h13 hu
          simp [parseRespF, altPR, encode, List.append_assoc, h1, h2, view]
      | intv s =>
        cases hwf with
        | intv hne hdig =>
          have h1 := parse_simple_string_fail 58 (s ++ 13 :: 10 :: rest)
            (by decide)
          have h2 := parse_error_fail 58 (s ++ 13 :: 10 :: rest) (by decide)
          have h3 := parse_integer_encode s rest hdig
          simp [parseRespF, altPR, encode, List.append_assoc, h1, h2, h3, view]
      | bulk s =>
        cases hwf with
        | bulk hu =>
          have h1 := parse_simple_string_fail 36
            (natDigits s.length ++ 13 :: 10 :: (s ++ 13 :: 10 :: rest))
            (by decide)
          have h2 := parse_error_fail 36
            (natDigits s.length ++ 13 :: 10 :: (s ++ 13 :: 10 :: rest))
            (by decide)
          have h3 := parse_integer_fail 36
            (natDigits s.length ++ 13 :: 10 :: (s ++ 13 :: 10 :: rest))
            (by decide)
          have h4 := parse_bulk_string_encode s rest hu
          simp [parseRespF, altPR, encode, List.append_assoc, h1, h2, h3, h4,
            view]
      | arr items =>
        cases hwf with
        | arr hitems =>
          have hdl : depthList items ≤ f := by
            have heq : depth (Resp.arr items) = depthList items + 1 := by
              simp [depth]
            omega
          have hrun := ih.2 items hitems hdl rest
          have hsplit := split_takeWhile isDigitB (natDigits items.length) 13
            (10 :: (encodeList items ++ rest)) (natDigits_all_digits _)
            (by decide)
          have hnn := natDigits_ne_nil items.length
          have hval := digitsToNat_natDigits items.length
          have h1 := parse_simple_string_fail 42
            (natDigits items.length ++ 13 :: 10 :: (encodeList items ++ rest))
            (by decide)
          have h2 := parse_error_fail 42
            (natDigits items.length ++ 13 :: 10 :: (encodeList items ++ rest))
            (by decide)
          have h3 := parse_integer_fail 42
            (natDigits items.length ++ 13 :: 10 :: (encodeList items ++ rest))
            (by decide)
          have h4 := parse_bulk_string_fail 42
            (natDigits items.length ++ 13 :: 10 :: (encodeList items ++ rest))
            (by decide)
          simp [parseRespF, altPR, encode, List.append_assoc, h1, h2, h3, h4,
            parse_arrayWith, charB, hsplit.1, hsplit.2, hnn, hval, tagCRLF,
            hrun, view]
    have hL2 : ∀ items : List Resp, (∀ r ∈ items, Wf r) →
        depthList items ≤ f + 1 → ∀ rest : List Nat,
        parseItemsWith (parseRespF (f + 1)) items.length
          (encodeList items ++ rest) = .ok rest (viewList items) := by
      intro items
      induction items with
      | nil =>
        intro _ _ rest
        simp [encodeList, parseItemsWith, viewList]
      | cons r rs ihl =>
        intro hwf hd rest
        have hr : Wf r := hwf r (by simp)
        have heq : depthList (r :: rs) = max (depth r) (depthList rs) := by
          simp [depthList]
        have hdr : depth r ≤ f + 1 := by
          have := le_max_left (depth r) (depthList rs)
          omega
        have hdrs : depthList rs ≤ f + 1 := by
          have := le_max_right (depth r) (depthList rs)
          omega
        have h1 := hL1 r hr hdr (encodeList rs ++ rest)
        have h2 := ihl (fun x hx => hwf x (by simp [hx])) hdrs rest
        simp [encodeList, List.append_assoc, parseItemsWith, h1, h2, viewList]
    exact ⟨hL1, hL2⟩

mutual

/-- The nesting depth of a value is dominated by its encoding length. -/
theorem depth_le_encode : (v : Resp) → depth v ≤ (encode v).length
  | .simple s => by simp [depth, encode]
  | .errv s => by simp [depth, encode]
  | .intv s => by simp [depth, encode]
  | .bulk s => by simp [depth, encode]
  | .arr items => by
    have h := depthList_le_encodeList items
    simp [depth, encode]
    omega

/-- List version of `depth_le_encode`. -/
theorem depthList_le_encodeList :
    (items : List Resp) → depthList items ≤ (encodeList items).length
  | [] => by simp [depthList, encodeList]
  | r :: rs => by
    have h1 := depth_le_encode r
    have h2 := depthList_le_encodeList rs
    have heq : depthList (r :: rs) = max (depth r) (depthList rs) := by
      simp [depthList]
    simp [encodeList]
    rw [heq]
    refine max_le ?_ ?_ <;> omega

end

/-- C8: for every legal value of the implemented RESP subset, emitting
its wire encoding and parsing it back with `parse_resp` consumes the
whole input and reproduces the equivalent 3-slot view — arrays of arity
at least 3 fill command/key/value from their first three items' values,
shorter arrays leave the missing slots absent, and an empty bulk string
yields an absent value. -/
theorem C8_resp_roundtrip (v : Resp) (hwf : Wf v) :
    parse_resp (encode v) = .ok [] (view v) := by
  have hd : depth v ≤ (encode v).length + 1 := by
    have := depth_le_encode v
    omega
  have h := (parse_encode_ok ((encode v).length + 1)).1 v hwf hd []
  simpa [parse_resp] using h

/-- Witness for C8: the legal value `*3 GET k v` round-trips to the view
`{command = GET, key = k, value = v}`. -/
theorem C8_resp_roundtrip_witness :
    Wf (Resp.arr [Resp.bulk [71, 69, 84], Resp.bulk [107], Resp.bulk [118]]) ∧
    parse_resp
        (encode (Resp.arr
          [Resp.bulk [71, 69, 84], Resp.bulk [107], Resp.bulk [118]])) =
      .ok []
        (view (Resp.arr
          [Resp.bulk [71, 69, 84], Resp.bulk [107], Resp.bulk [118]])) := by
  have hwf : Wf (Resp.arr
      [Resp.bulk [71, 69, 84], Resp.bulk [107], Resp.bulk [118]]) := by
    refine Wf.arr ?_
    intro r hr
    simp [List.mem_cons] at hr
    rcases hr with rfl | rfl | rfl <;> exact Wf.bulk (by decide)
  exact ⟨hwf, C8_resp_roundtrip _ hwf⟩

end Aragorn
